import Mathlib

/- Shallow embedding of the Time-Triggered (TT) scheduling extension of the
   ovs datapath: src/datapath/tt.c, src/datapath/vport.c, src/ofproto/tt.c.
   Machine integers are modelled as Nat with explicit truncation where the
   width of the C type matters; fallible routines return CResult, with a
   distinguished outcome for out-of-bounds array accesses (undefined
   behavior in the C). -/

namespace TT

set_option maxRecDepth 8192

/-- Truncation to 64 bits: the semantics of __u64 arithmetic in the kernel code. -/
def u64 (n : Nat) : Nat := n % 2 ^ 64

/-- Truncation to 16 bits: the semantics of __u16 variables in the kernel code. -/
def u16 (n : Nat) : Nat := n % 2 ^ 16

/-- Outcome of a C routine in the embedding: a normal value, an errno-style
failure, or undefined behavior from an out-of-bounds array access. -/
inductive CResult (A : Type) where
  | ok : A → CResult A
  | err : Int → CResult A
  | oob : CResult A
  | spin : CResult A
  deriving Repr, DecidableEq

instance : Monad CResult where
  pure := .ok
  bind m f :=
    match m with
    | .ok a => f a
    | .err e => .err e
    | .oob => .oob
    | .spin => .spin

/-- Subtraction in 64-bit unsigned arithmetic, for operands below 2^64. -/
def u64sub (a b : Nat) : Nat := u64 (a + 2 ^ 64 - b)

/-- Fueled body of the Euclidean recursion of gcd() in src/datapath/tt.c:
gcd(a, 0) = a and gcd(a, b) = gcd(b, a mod b), where do_div(a, b) leaves the
remainder.  The fuel only makes the recursion structural; b steps always
suffice because the second argument strictly decreases. -/
def gcdAux : Nat → Nat → Nat → Nat
  | 0, a, _ => a
  | fuel + 1, a, b => if b = 0 then a else gcdAux fuel b (a % b)

/-- gcd() from src/datapath/tt.c. -/
def gcdC (a b : Nat) : Nat := gcdAux b a b

/-- lcm() from src/datapath/tt.c: g = gcd(a, b); do_div(a, g) divides a by g;
the return value a * b is a 64-bit product, so the wraparound is explicit. -/
def lcmC (a b : Nat) : Nat := u64 (a / gcdC a b * b)

/-- One slot record of the per-port TT flow table (struct tt_table_item from
the datapath tt.h header); the rcu head is omitted, the payload fields kept:
circle is the period and time the offset, both in nanoseconds. -/
structure tt_table_item where
  flow_id : Nat
  buffer_id : Nat
  circle : Nat
  len : Nat
  time : Nat
  deriving Repr, DecidableEq

/-- The per-port TT flow table (struct tt_table): max slots, an occupied
count (an int in C, hence Int here: the code can drive it negative), and the
slot array tt_items, of length max for a well-formed table. -/
structure tt_table where
  count : Int
  max : Nat
  tt_items : List (Option tt_table_item)
  deriving Repr, DecidableEq

/-- A table is well formed when the slot list has exactly max entries. -/
def tt_table.wf (t : tt_table) : Prop := t.tt_items.length = t.max

/-- tt_table_alloc from src/datapath/tt.c: size = max(TT_TABLE_SIZE_MIN, size),
zeroed slots, count 0.  TT_TABLE_SIZE_MIN lives in the missing datapath tt.h
header, so it is carried as the parameter minCap throughout. -/
def tt_table_alloc (minCap size : Nat) : tt_table :=
  { count := 0, max := max minCap size,
    tt_items := List.replicate (max minCap size) none }

/-- Store v into slot i of the table, detecting the out-of-bounds case the C
performs silently. -/
def slotWrite (t : tt_table) (i : Nat) (v : Option tt_table_item) :
    CResult tt_table :=
  if i < t.max then .ok { t with tt_items := t.tt_items.set i v } else .oob

/-- tt_table_realloc from src/datapath/tt.c: allocate a table of the requested
size and copy every occupied slot of the old table across at the same index;
the C loop writes new->tt_items[i] for every occupied i < old->max even when i
is out of range of the new allocation, hence the bounds-checked writes.  The
old count is carried over. -/
def tt_table_realloc (minCap : Nat) (old : Option tt_table) (size : Nat) :
    CResult tt_table :=
  let base := tt_table_alloc minCap size
  match old with
  | none => .ok base
  | some o =>
      let step : CResult tt_table → Nat → CResult tt_table := fun acc i =>
        match acc with
        | .ok t =>
            match o.tt_items.getD i none with
            | some it => slotWrite t i (some it)
            | none => .ok t
        | other => other
      match (List.range o.max).foldl step (.ok base) with
      | .ok t => .ok { t with count := o.count }
      | other => other

/-- tt_table_lookup from src/datapath/tt.c: NULL when the table is absent or
flow_id ≥ max, otherwise the slot content. -/
def tt_table_lookup (cur : Option tt_table) (flow_id : Nat) :
    Option tt_table_item :=
  match cur with
  | none => none
  | some t => if flow_id ≥ t.max then none else t.tt_items.getD flow_id none

/-- tt_table_num_items from src/datapath/tt.c. -/
def tt_table_num_items (t : tt_table) : Int := t.count

/-- tt_table_item_insert from src/datapath/tt.c: copy the entry into a fresh
item, reallocate to flow_id + TT_TABLE_SIZE_MIN only when flow_id is strictly
greater than max (the source comparison is flow_id > cur_tt_table->max), then
store the item at index flow_id.  The routine never touches count. -/
def tt_table_item_insert (minCap : Nat) (cur : Option tt_table)
    (new : tt_table_item) : CResult tt_table :=
  let flow_id := new.flow_id
  let item : tt_table_item :=
    { flow_id := new.flow_id, buffer_id := new.buffer_id,
      circle := new.circle, len := new.len, time := new.time }
  match cur with
  | none =>
      match tt_table_realloc minCap none (flow_id + minCap) with
      | .ok t => slotWrite t flow_id (some item)
      | .err e => .err e
      | .oob => .oob
      | .spin => .spin
  | some t =>
      if flow_id > t.max then
        match tt_table_realloc minCap (some t) (flow_id + minCap) with
        | .ok t2 => slotWrite t2 flow_id (some item)
        | .err e => .err e
        | .oob => .oob
        | .spin => .spin
      else slotWrite t flow_id (some item)

/-- tt_table_delete_item from src/datapath/tt.c: err 0 stands for the NULL
error return; when the slot is occupied it is cleared and count decremented;
then the table shrinks to max/2 when max ≥ 2*TT_TABLE_SIZE_MIN and
count ≤ max/3 (a failed shrink allocation would return the unshrunk table,
and allocation never fails in the model). -/
def tt_table_delete_item (minCap : Nat) (cur : Option tt_table)
    (flow_id : Nat) : CResult tt_table :=
  match cur with
  | none => .err 0
  | some t =>
      if flow_id ≥ t.max then .err 0
      else
        let t1 :=
          match t.tt_items.getD flow_id none with
          | some _ =>
              { t with tt_items := t.tt_items.set flow_id none,
                       count := t.count - 1 }
          | none => t
        if t1.max ≥ minCap * 2 ∧ t1.count ≤ (t1.max : Int) / 3 then
          match tt_table_realloc minCap (some t1) (t1.max / 2) with
          | .ok t2 => .ok t2
          | .err _ => .ok t1
          | .oob => .oob
          | .spin => .spin
        else .ok t1

/-- Number of occupied slots of a table, the quantity the spec calls the
exact occupied-slot count. -/
def occupiedSlots (t : tt_table) : Nat :=
  (t.tt_items.filter Option.isSome).length

/-- Control-plane session state (enum tt_table_state in the ofproto tt.h). -/
inductive tt_table_state where
  | TTS_MUTABLE
  | TTS_CONST
  deriving Repr, DecidableEq

/-- One decoded TT flow-mod entry accumulated by the control session; the
fields follow struct onf_tt_flow_mod in include/openflow/onf-tt-ext.h. -/
structure onf_tt_entry where
  port : Nat
  etype : Nat
  flow_id : Nat
  base_offset : Nat
  period : Nat
  buffer_id : Nat
  packet_size : Nat
  deriving Repr, DecidableEq

/-- struct onf_tt_table from the ofproto tt.h: the control-plane assembly
session. -/
structure onf_tt_table where
  expect_flows : Nat
  recv_flows : Nat
  max_flows : Nat
  state : tt_table_state
  entry_list : List onf_tt_entry
  deriving Repr, DecidableEq

/-- Value of the enum ofperr variable returned by the session routines; the
source never assigns it (all the guard branches are empty TODO comments), so
the only value the embedding can return is the uninitialized one. -/
inductive ofperrVal where
  | uninitialized
  deriving Repr, DecidableEq

/-- onf_tt_table_create from src/ofproto/tt.c. -/
def onf_tt_table_create : onf_tt_table :=
  { expect_flows := 0, recv_flows := 0, max_flows := 255,
    state := .TTS_MUTABLE, entry_list := [] }

/-- onf_tt_flow_receive_start from src/ofproto/tt.c: the over-limit branch is
an empty TODO; expect_flows is set and the state forced to TTS_MUTABLE; the
returned error is never initialized. -/
def onf_tt_flow_receive_start (t : onf_tt_table) (flow_cnt : Nat) :
    onf_tt_table × ofperrVal :=
  ({ t with expect_flows := flow_cnt, state := .TTS_MUTABLE }, .uninitialized)

/-- onf_tt_table_add_entry from src/ofproto/tt.c: both guard branches (no
table, wrong state) are empty TODOs, so recv_flows is always incremented and
the entry always appended. -/
def onf_tt_table_add_entry (t : onf_tt_table) (e : onf_tt_entry) :
    onf_tt_table × ofperrVal :=
  ({ t with recv_flows := t.recv_flows + 1,
            entry_list := t.entry_list ++ [e] }, .uninitialized)

/-- onf_tt_flow_receive_end from src/ofproto/tt.c: all three guard branches
(no table, wrong state, count mismatch) are empty TODOs, the state is set to
TTS_CONST unconditionally and the uninitialized error is returned. -/
def onf_tt_flow_receive_end (t : onf_tt_table) : onf_tt_table × ofperrVal :=
  ({ t with state := .TTS_CONST }, .uninitialized)

/-- Bounds-checked array read: the C reads the slot silently, the embedding
flags the out-of-bounds case. -/
def aGet (l : List Nat) (i : Nat) : CResult Nat :=
  if h : i < l.length then .ok (l.get ⟨i, h⟩) else .oob

/-- Exchange of two list cells, both bounds checked. -/
def listSwap (l : List Nat) (i j : Nat) : CResult (List Nat) := do
  let a ← aGet l i
  let b ← aGet l j
  pure ((l.set i b).set j a)

/-- The pair of parallel arrays sort() permutes: send_times and flow_ids. -/
structure SortArrays where
  times : List Nat
  ids : List Nat
  deriving Repr, DecidableEq

/-- The SWAP pair of sort(): exchange cells i and j of both arrays. -/
def swap2 (s : SortArrays) (i j : Nat) : CResult SortArrays := do
  let ts ← listSwap s.times i j
  let is_ ← listSwap s.ids i j
  pure { times := ts, ids := is_ }

/-- The first inner scan of sort(): while (send_times[l] <= send_times[right])
l++, with l a __u16 that wraps. -/
def scanUp (fuel : Nat) (times : List Nat) (pivot l : Nat) : CResult Nat :=
  match fuel with
  | 0 => .spin
  | fuel + 1 => do
      let x ← aGet times l
      let p ← aGet times pivot
      if x ≤ p then scanUp fuel times pivot (u16 (l + 1)) else pure l

/-- The second inner scan of sort(): while (send_times[r] > send_times[right])
r--, with r a __u16 that wraps below zero. -/
def scanDown (fuel : Nat) (times : List Nat) (pivot r : Nat) : CResult Nat :=
  match fuel with
  | 0 => .spin
  | fuel + 1 => do
      let x ← aGet times r
      let p ← aGet times pivot
      if x > p then scanDown fuel times pivot (u16 (r + 65535)) else pure r

/-- The partition loop of sort(): while (l < r) run both scans and exchange
when they have not crossed; returns the final l together with the arrays. -/
def partLoop (fuel : Nat) (s : SortArrays) (pivot l r : Nat) :
    CResult (SortArrays × Nat) :=
  match fuel with
  | 0 => .spin
  | fuel + 1 =>
      if l < r then do
        let l2 ← scanUp fuel s.times pivot l
        let r2 ← scanDown fuel s.times pivot r
        if l2 < r2 then do
          let s2 ← swap2 s l2 r2
          partLoop fuel s2 pivot l2 r2
        else pure (s, l2)
      else pure (s, l)

/-- sort() from src/datapath/tt.c: median-of-three quicksort over the parallel
arrays, all index variables of type __u16.  The recursive call on the left
part passes l - 1, which wraps to 65535 when l = 0; the embedding keeps that
wraparound explicit through u16.  Fuel only bounds the recursion and the
scan loops of the model; every run the theorems mention ends in ok or oob. -/
def sortC (fuel : Nat) (s : SortArrays) (left right : Nat) :
    CResult SortArrays :=
  match fuel with
  | 0 => .spin
  | fuel + 1 =>
      if left ≥ right then pure s
      else do
        let mid := u16 ((right - left) / 2 + left)
        let a ← aGet s.times right
        let b ← aGet s.times left
        let l0 := if a < b then right else left
        let r0 := if a < b then left else right
        let m ← aGet s.times mid
        let lv ← aGet s.times l0
        let rv ← aGet s.times r0
        let s1 ←
          if m < lv then swap2 s l0 right
          else if m > rv then swap2 s r0 right
          else swap2 s mid right
        let pr ← partLoop fuel s1 right left (right - 1)
        let s3 ← swap2 pr.1 pr.2 right
        let s4 ← sortC fuel s3 left (u16 (pr.2 + 65535))
        sortC fuel s4 (u16 (pr.2 + 1)) right

/-- struct tt_send_cache: the dispatcher output arrays and their length. -/
structure tt_send_cache where
  send_times : List Nat
  flow_ids : List Nat
  size : Nat
  deriving Repr, DecidableEq

/-- struct tt_send_info: the send cache plus the macro period. -/
structure tt_send_info where
  send_cache : tt_send_cache
  macro_period : Nat
  deriving Repr, DecidableEq

/-- The macro-period loop of dispatch(): fold the 64-bit lcm of the circle
field over the occupied slots in index order, starting from 1. -/
def macroPeriodOf (t : tt_table) : Nat :=
  (t.tt_items.filterMap id).foldl (fun acc it => lcmC acc it.circle) 1

/-- The size loop of dispatch(): sum macro_period / circle over the occupied
slots (do_div quotient), in 64-bit arithmetic. -/
def sendSizeOf (t : tt_table) : Nat :=
  (t.tt_items.filterMap id).foldl
    (fun acc it => u64 (acc + macroPeriodOf t / it.circle)) 0

/-- The emission loop of dispatch() for one entry: instants offset, offset +
circle, ... while below the macro period, paired with the flow id. -/
def emitLoop (fuel : Nat) (mperiod circle fid offset : Nat) :
    List (Nat × Nat) :=
  match fuel with
  | 0 => []
  | fuel + 1 =>
      if offset < mperiod then
        (offset, fid) :: emitLoop fuel mperiod circle fid (u64 (offset + circle))
      else []

/-- dispatch() from src/datapath/tt.c: fails -EINVAL only when the send table
pointer is NULL; otherwise computes the macro period and the instant count,
emits the (instant, flow_id) pairs slot by slot into arrays allocated with
size cells (more pairs than size would be an out-of-bounds write, fewer leaves
garbage cells the sort then reads, which the bounds-checked sort flags), and
sorts with right = (u16)(size - 1), computed in 64-bit then truncated. -/
def dispatch (fuel : Nat) (send_table : Option tt_table) :
    CResult tt_send_info :=
  match send_table with
  | none => .err (-22)
  | some t =>
      let mp := macroPeriodOf t
      let size := sendSizeOf t
      let pairs := (t.tt_items.filterMap id).foldl
        (fun acc it => acc ++ emitLoop fuel mp it.circle it.flow_id it.time)
        []
      if pairs.length > size then .oob
      else do
        let s1 ← sortC fuel { times := pairs.map Prod.fst,
                              ids := pairs.map Prod.snd }
                 0 (u16 (u64sub size 1))
        pure { send_cache := { send_times := s1.times, flow_ids := s1.ids,
                               size := size },
               macro_period := mp }

/-- Fueled body of the narrowing loop of binarySearch() from
src/datapath/tt.c: mid = (right - left)/2 + left, then left = mid + 1 when
send_times[mid] <= modTime, else right = mid.  The fuel only makes the loop
structural; right - left steps always suffice because the width strictly
decreases. -/
def bsAux : Nat → List Nat → Nat → Nat → Nat → Nat
  | 0, _, _, left, _ => left
  | fuel + 1, times, modTime, left, right =>
      if left < right then
        if times.getD ((right - left) / 2 + left) 0 ≤ modTime then
          bsAux fuel times modTime ((right - left) / 2 + left + 1) right
        else bsAux fuel times modTime left ((right - left) / 2 + left)
      else left

/-- The narrowing loop of binarySearch() from src/datapath/tt.c. -/
def bsLoop (times : List Nat) (modTime left right : Nat) : Nat :=
  bsAux (right - left) times modTime left right

/-- binarySearch() from src/datapath/tt.c: narrow [0, size - 1] and return
do_div(left, size), i.e. left mod size. -/
def binarySearch (info : tt_send_info) (modTime : Nat) : Nat :=
  bsLoop info.send_cache.send_times modTime 0 (info.send_cache.size - 1) %
    info.send_cache.size

/-- get_next_time() from src/datapath/tt.c, returning (wait_time, flow_id,
send_time).  do_div(cur_time, macro_period) overwrites cur_time with the
quotient and yields the remainder mod_time, so the final line
send_time = cur_time + send_time adds the quotient, not the original time.
All sums and differences are 64-bit. -/
def get_next_time (info : tt_send_info) (cur_time : Nat) : Nat × Nat × Nat :=
  let mod_time := cur_time % info.macro_period
  let quot := cur_time / info.macro_period
  let times := info.send_cache.send_times
  let idx := binarySearch info mod_time
  let next_idx := (idx + 1) % info.send_cache.size
  let flow_id := info.send_cache.flow_ids.getD idx 0
  let wait_time :=
    if next_idx = 0 then
      u64sub (u64 (times.getD next_idx 0 + info.macro_period))
        (times.getD idx 0)
    else u64sub (times.getD next_idx 0) (times.getD idx 0)
  let send0 :=
    if mod_time > times.getD idx 0 then
      u64 (u64sub info.macro_period mod_time + times.getD idx 0)
    else u64sub (times.getD idx 0) mod_time
  (wait_time, flow_id, u64 (quot + send0))

/-- A socket buffer in the slice the codec touches: the byte list starts at
the MAC header, mac_len is skb->mac_len, and len is the list length.
Headroom is taken as sufficient (skb_cow_head succeeds) and the buffer as
writable (skb_ensure_writable succeeds), as the claims hypothesize. -/
structure sk_buff where
  data : List Nat
  mac_len : Nat
  deriving Repr, DecidableEq

/-- Big-endian byte pair of a 16-bit value: network byte order. -/
def be16 (v : Nat) : List Nat := [v / 256 % 256, v % 256]

/-- EtherType of IPv4, from linux/if_ether.h. -/
def ETH_P_IP : Nat := 0x0800

/-- Overwrite the two EtherType bytes of the Ethernet header starting at byte
position base: h_proto sits at offsets 12 and 13 of struct ethhdr. -/
def setProto (bytes : List Nat) (base v : Nat) : List Nat :=
  (bytes.set (base + 12) (v / 256 % 256)).set (base + 13) (v % 256)

/-- Modelled from the spec: the byte layout of struct tt_header, absent from
src (it lives in the missing datapath tt.h): flow_id then len, each two bytes
in network byte order. -/
def tt_header_bytes (fid len : Nat) : List Nat := be16 fid ++ be16 len

/-- push_tt() from src/datapath/tt.c: skb_push grows the frame by TT_HLEN = 4,
the memmove copies the mac_len MAC bytes to the new front (the four residual
bytes after them are exactly overwritten by the TT header), the EtherType is
set to ETH_P_TT, and the header carries flow_id and len = skb->len - 4 where
skb->len already counts the four pushed bytes.  ETH_P_TT comes from the
missing datapath tt.h header and is carried as a parameter. -/
def push_tt (ethPTT : Nat) (skb : sk_buff) (flow_id : Nat) : sk_buff :=
  let mac := skb.data.take skb.mac_len
  let payload := skb.data.drop skb.mac_len
  let newLen := skb.data.length + 4
  { data := setProto mac 0 ethPTT ++
      tt_header_bytes (u16 flow_id) (u16 (newLen - 4)) ++ payload,
    mac_len := skb.mac_len }

/-- pop_tt() from src/datapath/tt.c: the MAC header is copied four bytes
forward over the TT header, the frame is pulled by four, and the EtherType is
restored to ETH_P_IP through a struct ethhdr pointer planted ETH_HLEN = 14
bytes before the TT header position, i.e. at byte mac_len - 14 of the result. -/
def pop_tt (skb : sk_buff) : sk_buff :=
  let mac := skb.data.take skb.mac_len
  let rest := skb.data.drop (skb.mac_len + 4)
  { data := setProto (mac ++ rest) (skb.mac_len - 14) ETH_P_IP,
    mac_len := skb.mac_len }

/-- is_tt_packet() from src/datapath/tt.c: the frame is native TT iff the
EtherType bytes at offsets 12 and 13 of the MAC header equal ETH_P_TT in
network order (eth_p_tt compares h_proto against htons(ETH_P_TT)). -/
def is_tt_packet (ethPTT : Nat) (skb : sk_buff) : Bool :=
  (skb.data.getD 12 0 == ethPTT / 256 % 256) &&
    (skb.data.getD 13 0 == ethPTT % 256)

/-- State of the per-port hrtimer: hrtimer_flag 0 is Idle, 1 is Armed. -/
inductive TimerState where
  | Idle
  | Armed
  deriving Repr, DecidableEq

/-- ovs_vport_start_tt_schedule from src/datapath/vport.c: cancel any running
timer, run dispatch, and only on success arm the hrtimer; a dispatch failure
returns -EINVAL with the timer left cancelled (Idle). -/
def ovs_vport_start_tt_schedule (fuel : Nat) (send_table : Option tt_table) :
    CResult (tt_send_info × TimerState) :=
  match dispatch fuel send_table with
  | .ok info => .ok (info, .Armed)
  | .err _ => .err (-22)
  | .oob => .oob
  | .spin => .spin

/- Concrete scenario data used by the theorems below. -/

/-- Scenario S1 entry (flow 0, offset 0, period 300). -/
def s1e0 : tt_table_item :=
  { flow_id := 0, buffer_id := 0, circle := 300, len := 0, time := 0 }

/-- Scenario S1 entry (flow 1, offset 100, period 500). -/
def s1e1 : tt_table_item :=
  { flow_id := 1, buffer_id := 0, circle := 500, len := 0, time := 100 }

/-- Scenario S1 send table holding the two entries at slots 0 and 1. -/
def s1Table : tt_table :=
  { count := 2, max := 4, tt_items := [some s1e0, some s1e1, none, none] }

/-- An allocated send table with minimum capacity and every slot empty. -/
def c9EmptyTable : tt_table :=
  { count := 0, max := 4, tt_items := [none, none, none, none] }

/-- A send cache with two instants, macro period 1000: times [0, 100] and
flow ids [1, 2]. -/
def c2CexInfo : tt_send_info :=
  { send_cache := { send_times := [0, 100], flow_ids := [1, 2], size := 2 },
    macro_period := 1000 }

/-- Scenario S2 send cache: the single flow 7 at instant 250 in a macro
period of 1000. -/
def s2Info : tt_send_info :=
  { send_cache := { send_times := [250], flow_ids := [7], size := 1 },
    macro_period := 1000 }

/-- Entry with a period of 2^33 ns (about 8.6 s). -/
def c6Big0 : tt_table_item :=
  { flow_id := 0, buffer_id := 0, circle := 2 ^ 33, len := 0, time := 0 }

/-- Entry with a period of 2^33 + 1 ns. -/
def c6Big1 : tt_table_item :=
  { flow_id := 1, buffer_id := 0, circle := 2 ^ 33 + 1, len := 0, time := 0 }

/-- Send table with the two large-period entries: their true lcm is
2^66 + 2^33, beyond 64 bits. -/
def c6Table : tt_table :=
  { count := 2, max := 4, tt_items := [some c6Big0, some c6Big1, none, none] }

/-- An entry with flow_id 0, used to build a fresh four-slot table. -/
def c4e0 : tt_table_item :=
  { flow_id := 0, buffer_id := 0, circle := 300, len := 0, time := 0 }

/-- The table produced by inserting c4e0 into a NULL table with
TT_TABLE_SIZE_MIN = 4: capacity four, slot 0 occupied, count untouched. -/
def c4t0 : tt_table :=
  { count := 0, max := 4,
    tt_items := [some c4e0, none, none, none] }

/-- An entry whose flow_id 4 equals the capacity of c4t0. -/
def c4e4 : tt_table_item :=
  { flow_id := 4, buffer_id := 0, circle := 300, len := 0, time := 0 }

/-- A decoded control-plane entry for the C1 scenario. -/
def c1Entry : onf_tt_entry :=
  { port := 1, etype := 0, flow_id := 1, base_offset := 0, period := 300,
    buffer_id := 0, packet_size := 64 }

/-- The C1 session: BeginAdd(3) followed by two AddEntry calls, so that
received = 2 differs from expected = 3 and the state is MUTABLE. -/
def c1Session : onf_tt_table :=
  (onf_tt_table_add_entry
    (onf_tt_table_add_entry
      (onf_tt_flow_receive_start onf_tt_table_create 3).1 c1Entry).1
    c1Entry).1

/-- Scenario S3 frame: 100 bytes, standard MAC header, EtherType IPv4. -/
def s3Frame : sk_buff :=
  { data := [0xaa, 0xbb, 0xcc, 0xdd, 0xee, 0xff,
             0x11, 0x22, 0x33, 0x44, 0x55, 0x66,
             0x08, 0x00] ++ List.replicate 86 0,
    mac_len := 14 }

/-- The dispatch macro-period fold in unbounded arithmetic: the true least
common multiple of the circle fields of the occupied slots. -/
def natMacroPeriodOf (t : tt_table) : Nat :=
  (t.tt_items.filterMap id).foldl (fun acc it => Nat.lcm acc it.circle) 1

/-- Length of the leading run of entries that are at most m. -/
def leCount (times : List Nat) (m : Nat) : Nat :=
  match times with
  | [] => 0
  | x :: rest => if x ≤ m then leCount rest m + 1 else 0

/-- For a sorted list, the index the timer lookup lands on: the least i with
times[i] > m, clamped to the last index when every entry is ≤ m. -/
def insertionIdx (times : List Nat) (m : Nat) : Nat :=
  min (leCount times m) (times.length - 1)

/-- The behavior of get_next_time in specification form (the amended C2
claim): mod_time = t mod macro_period; idx the least i with times[i] >
mod_time, wrapping to size - 1 when every instant is ≤ mod_time; flow_id the
parallel entry; wait the gap to the following instant, plus one macro period
on wrap; and the returned send time is the do_div quotient t / macro_period
plus the forward distance (times[idx] - mod_time) mod macro_period. -/
def nextSpec (info : tt_send_info) (t : Nat) : Nat × Nat × Nat :=
  let mp := info.macro_period
  let times := info.send_cache.send_times
  let m := t % mp
  let idx := insertionIdx times m
  let wait :=
    if idx + 1 = times.length then times.getD 0 0 + mp - times.getD idx 0
    else times.getD (idx + 1) 0 - times.getD idx 0
  let delta :=
    if times.getD idx 0 < m then mp - m + times.getD idx 0
    else times.getD idx 0 - m
  (wait, info.send_cache.flow_ids.getD idx 0, t / mp + delta)

/- ------------------------------------------------------------------ -/
/- Theorems.                                                          -/
/- ------------------------------------------------------------------ -/

/-- C1: after BeginAdd(3) and only two AddEntry calls the session is MUTABLE
with received 2 ≠ expected 3, yet onf_tt_flow_receive_end still moves the
state to TTS_CONST and returns the uninitialized error variable instead of
failing Incomplete and staying MUTABLE: the code contradicts the documented
intent (its guard branches are empty TODO comments). -/
theorem C1_receive_end_ignores_mismatch :
    c1Session.state = tt_table_state.TTS_MUTABLE ∧
    c1Session.expect_flows = 3 ∧ c1Session.recv_flows = 2 ∧
    (onf_tt_flow_receive_end c1Session).1.state = tt_table_state.TTS_CONST ∧
    (onf_tt_flow_receive_end c1Session).2 = ofperrVal.uninitialized := by
  decide

/-- C3: on the S1 table (flow 0 period 300 offset 0, flow 1 period 500
offset 100) dispatch returns macro period 1500 and size 8 but the timeline
[0, 100, 300, 600, 900, 600, 1100, 1200] with flow ids [0, 1, 0, 0, 0, 1, 1, 0],
which is not sorted ascending (900 precedes 600): the quicksort fails to
sort, contradicting the claimed timeline [0, 100, 300, 600, 600, 900, 1100,
1200]. -/
theorem C3_dispatch_s1_unsorted :
    dispatch 100 (some s1Table) =
      CResult.ok
        { send_cache :=
            { send_times := [0, 100, 300, 600, 900, 600, 1100, 1200],
              flow_ids := [0, 1, 0, 0, 0, 1, 1, 0], size := 8 },
          macro_period := 1500 } ∧
    ¬ List.Sorted (fun a b => a ≤ b)
        [0, 100, 300, 600, 900, 600, 1100, 1200] := by
  decide

/-- C4: inserting flow_id 0 into a NULL table (TT_TABLE_SIZE_MIN = 4) yields
a table of capacity 4; inserting an entry with flow_id 4, equal to the
capacity, does not grow the table (the source guard is flow_id > max, not ≥)
and writes one slot past the end of the array, and a lookup of flow_id 4 on
the capacity-4 table returns NULL: the claim that insert at k = capacity
grows the table and becomes visible to lookup is right and the code wrong. -/
theorem C4_insert_at_capacity_out_of_bounds :
    tt_table_item_insert 4 none c4e0 = CResult.ok c4t0 ∧
    c4t0.max = 4 ∧
    tt_table_item_insert 4 (some c4t0) c4e4 = CResult.oob ∧
    tt_table_lookup (some c4t0) 4 = none := by
  decide

/-- C5: after inserting one entry into a fresh table the table has exactly
one occupied slot, yet tt_table_num_items reports 0, because
tt_table_item_insert never increments count (while tt_table_delete_item does
decrement it): the counter does not track the occupied slots. -/
theorem C5_insert_leaves_count_zero :
    tt_table_item_insert 4 none c4e0 = CResult.ok c4t0 ∧
    occupiedSlots c4t0 = 1 ∧
    tt_table_num_items c4t0 = 0 := by
  decide

/-- C9: dispatch fails cleanly (-EINVAL) only when the send table pointer is
NULL; on an allocated table whose slots are all empty it computes size 0 and
calls sort with right = (u16)(0 - 1) = 65535, reading far out of bounds of
the zero-length arrays, instead of failing with NothingToSchedule; start
only stays Idle in the NULL case. -/
theorem C9_dispatch_empty_table_oob :
    dispatch 100 (some c9EmptyTable) = CResult.oob ∧
    ovs_vport_start_tt_schedule 100 (some c9EmptyTable) = CResult.oob ∧
    ovs_vport_start_tt_schedule 100 none = CResult.err (-22) := by
  decide

/-- C10 counterexample: on the two-element arrays times = [1, 2], ids =
[10, 20] (no duplicates even needed) the quicksort ends its partition with
l = 0 and recurses on sort(0, (u16)(0 - 1)) = sort(0, 65535), reading index
65535 of a length-2 array: an access outside [0, n - 1]. -/
theorem C10_counterexample :
    sortC 100 { times := [1, 2], ids := [10, 20] } 0 (2 - 1) =
      CResult.oob := by
  decide

/-- C10 (amended): the in-bounds termination of the quicksort holds only for
single-element arrays, where sort(0, 0) returns at the left >= right guard
without touching either array; every two-element input already reads index
65535 (see the counterexample). -/
theorem C10_amended (a b fuel : Nat) (hf : 0 < fuel) :
    sortC fuel { times := [a], ids := [b] } 0 0 =
      CResult.ok { times := [a], ids := [b] } := by
  cases fuel with
  | zero => omega
  | succ n => rfl

/-- Witness for C10 (amended) at a concrete single-element input. -/
theorem C10_amended_witness :
    sortC 5 { times := [42], ids := [7] } 0 0 =
      CResult.ok { times := [42], ids := [7] } :=
  C10_amended 42 7 5 (by decide)

/- Lemmas about folded least common multiples, for C6. -/

/-- The seed divides a foldl of Nat.lcm. -/
theorem start_dvd_foldl_lcm (l : List Nat) (a : Nat) :
    a ∣ l.foldl Nat.lcm a := by
  induction l generalizing a with
  | nil => exact dvd_rfl
  | cons y l ih =>
      exact dvd_trans (Nat.dvd_lcm_left a y) (ih (Nat.lcm a y))

/-- Every list element divides a foldl of Nat.lcm. -/
theorem mem_dvd_foldl_lcm (l : List Nat) (a x : Nat) (hx : x ∈ l) :
    x ∣ l.foldl Nat.lcm a := by
  induction l generalizing a with
  | nil => cases hx
  | cons y l ih =>
      rcases List.mem_cons.mp hx with h | h
      · subst h
        exact dvd_trans (Nat.dvd_lcm_right a x) (start_dvd_foldl_lcm l (Nat.lcm a x))
      · exact ih (Nat.lcm a y) h

/-- A foldl of Nat.lcm divides any common multiple of the seed and the
elements. -/
theorem foldl_lcm_dvd (l : List Nat) (a m : Nat) (ha : a ∣ m)
    (h : ∀ x ∈ l, x ∣ m) : l.foldl Nat.lcm a ∣ m := by
  induction l generalizing a with
  | nil => exact ha
  | cons y l ih =>
      exact ih (Nat.lcm a y) (Nat.lcm_dvd ha (h y (List.mem_cons_self y l)))
        (fun x hx => h x (List.mem_cons_of_mem y hx))

/-- A foldl of Nat.lcm over positive numbers from a positive seed is
positive. -/
theorem foldl_lcm_pos (l : List Nat) (a : Nat) (ha : 0 < a)
    (h : ∀ x ∈ l, 0 < x) : 0 < l.foldl Nat.lcm a := by
  induction l generalizing a with
  | nil => exact ha
  | cons y l ih =>
      exact ih (Nat.lcm a y)
        (Nat.lcm_pos ha (h y (List.mem_cons_self y l)))
        (fun x hx => h x (List.mem_cons_of_mem y hx))

/-- The fueled Euclid computes Nat.gcd (with swapped arguments, matching the
source recursion gcd(a, b) = gcd(b, a mod b)) whenever the fuel covers b. -/
theorem gcdAux_eq (fuel : Nat) : ∀ a b : Nat, b ≤ fuel →
    gcdAux fuel a b = Nat.gcd b a := by
  induction fuel with
  | zero =>
      intro a b h
      have hb : b = 0 := by omega
      subst hb
      simp [gcdAux]
  | succ n ih =>
      intro a b h
      by_cases hb : b = 0
      · subst hb
        simp [gcdAux]
      · have hlt : a % b < b := Nat.mod_lt _ (Nat.pos_of_ne_zero hb)
        have : gcdAux (n + 1) a b = gcdAux n b (a % b) := by
          simp [gcdAux, hb]
        rw [this, ih b (a % b) (by omega)]
        exact (Nat.gcd_rec b a).symm

/-- gcd() from the source equals Nat.gcd with swapped arguments. -/
theorem gcdC_eq (a b : Nat) : gcdC a b = Nat.gcd b a :=
  gcdAux_eq b a b (Nat.le_refl b)

/-- Below 2^64 the source lcm() computes the true least common multiple. -/
theorem lcmC_eq_lcm (a b : Nat) (hb : Nat.lcm a b < 2 ^ 64) :
    lcmC a b = Nat.lcm a b := by
  have hg : gcdC a b = Nat.gcd a b := by rw [gcdC_eq, Nat.gcd_comm]
  have hd : a / Nat.gcd a b * b = Nat.lcm a b := by
    rw [Nat.mul_comm, ← Nat.mul_div_assoc b (Nat.gcd_dvd_left a b),
      Nat.mul_comm b a]
    rfl
  rw [lcmC, hg, hd, u64, Nat.mod_eq_of_lt hb]

/-- Below the 64-bit bound (on the true folded lcm) the code fold of lcmC
coincides with the Nat.lcm fold. -/
theorem foldl_lcmC_eq (l : List Nat) : ∀ a : Nat, 0 < a →
    (∀ x ∈ l, 0 < x) → l.foldl Nat.lcm a < 2 ^ 64 →
    l.foldl lcmC a = l.foldl Nat.lcm a := by
  induction l with
  | nil => intro a _ _ _; rfl
  | cons y l ih =>
      intro a ha hpos hb
      have hy : 0 < y := hpos y (List.mem_cons_self y l)
      have hposl : ∀ x ∈ l, 0 < x :=
        fun x hx => hpos x (List.mem_cons_of_mem y hx)
      have hlcm_pos : 0 < Nat.lcm a y := Nat.lcm_pos ha hy
      have hb' : l.foldl Nat.lcm (Nat.lcm a y) < 2 ^ 64 := by
        simpa using hb
      have hfold_pos : 0 < l.foldl Nat.lcm (Nat.lcm a y) :=
        foldl_lcm_pos l (Nat.lcm a y) hlcm_pos hposl
      have hlcm_lt : Nat.lcm a y < 2 ^ 64 :=
        Nat.lt_of_le_of_lt
          (Nat.le_of_dvd hfold_pos (start_dvd_foldl_lcm l (Nat.lcm a y))) hb'
      calc (y :: l).foldl lcmC a = l.foldl lcmC (lcmC a y) := by simp
        _ = l.foldl lcmC (Nat.lcm a y) := by rw [lcmC_eq_lcm a y hlcm_lt]
        _ = l.foldl Nat.lcm (Nat.lcm a y) := ih (Nat.lcm a y) hlcm_pos hposl hb'
        _ = (y :: l).foldl Nat.lcm a := by simp

/-- Both macro-period folds are folds over the list of periods. -/
theorem macroPeriodOf_eq_foldl (t : tt_table) :
    macroPeriodOf t =
      ((t.tt_items.filterMap id).map tt_table_item.circle).foldl lcmC 1 ∧
    natMacroPeriodOf t =
      ((t.tt_items.filterMap id).map tt_table_item.circle).foldl Nat.lcm 1 := by
  constructor <;> rw [List.foldl_map] <;> rfl

/-- C6 counterexample: a send table holding two positive periods 2^33 and
2^33 + 1 whose true lcm is 2^66 + 2^33; the 64-bit product inside lcm()
wraps, dispatch computes macro_period = 2^33, and the second period does not
divide it, so macro_period is not a common multiple at all. -/
theorem C6_counterexample :
    (some c6Big1) ∈ c6Table.tt_items ∧
    0 < c6Big0.circle ∧ 0 < c6Big1.circle ∧
    macroPeriodOf c6Table = 2 ^ 33 ∧
    ¬ c6Big1.circle ∣ macroPeriodOf c6Table := by
  refine ⟨by decide, by decide, by decide, by decide, fun hdvd => ?_⟩
  have hmac : macroPeriodOf c6Table = 2 ^ 33 := by decide
  have hcirc : c6Big1.circle = 2 ^ 33 + 1 := rfl
  rw [hmac, hcirc] at hdvd
  have hle : 2 ^ 33 + 1 ≤ 2 ^ 33 := Nat.le_of_dvd (by norm_num) hdvd
  omega

/-- C6 (amended): whenever the true least common multiple of the periods
fits in 64 bits (and the table is non-empty with strictly positive periods,
as claimed), the macro period the dispatcher computes is positive, divisible
by every present period, and the least positive common multiple. -/
theorem C6_amended (t : tt_table)
    (_hne : t.tt_items.filterMap id ≠ [])
    (hpos : ∀ it ∈ t.tt_items.filterMap id, 0 < it.circle)
    (hbound : natMacroPeriodOf t < 2 ^ 64) :
    0 < macroPeriodOf t ∧
    (∀ it ∈ t.tt_items.filterMap id, it.circle ∣ macroPeriodOf t) ∧
    (∀ m, 0 < m → (∀ it ∈ t.tt_items.filterMap id, it.circle ∣ m) →
      macroPeriodOf t ≤ m) := by
  obtain ⟨hcode, hnat⟩ := macroPeriodOf_eq_foldl t
  have hposl : ∀ x ∈ (t.tt_items.filterMap id).map tt_table_item.circle,
      0 < x := by
    intro x hx
    obtain ⟨it, hit, rfl⟩ := List.mem_map.mp hx
    exact hpos it hit
  have hb : ((t.tt_items.filterMap id).map tt_table_item.circle).foldl
      Nat.lcm 1 < 2 ^ 64 := by rw [← hnat]; exact hbound
  have hkey : macroPeriodOf t =
      ((t.tt_items.filterMap id).map tt_table_item.circle).foldl Nat.lcm 1 := by
    rw [hcode]
    exact foldl_lcmC_eq _ 1 (by omega) hposl hb
  refine ⟨?_, ?_, ?_⟩
  · rw [hkey]
    exact foldl_lcm_pos _ 1 (by omega) hposl
  · intro it hit
    rw [hkey]
    exact mem_dvd_foldl_lcm _ 1 it.circle
      (List.mem_map_of_mem tt_table_item.circle hit)
  · intro m hm hdvd
    rw [hkey]
    refine Nat.le_of_dvd hm (foldl_lcm_dvd _ 1 m (Nat.one_dvd m) ?_)
    intro x hx
    obtain ⟨it, hit, rfl⟩ := List.mem_map.mp hx
    exact hdvd it hit

/-- Witness for C6 (amended) at the S1 table (periods 300 and 500): the
computed macro period 1500 is the positive least common multiple. -/
theorem C6_amended_witness :
    (0 < macroPeriodOf s1Table ∧
     (∀ it ∈ s1Table.tt_items.filterMap id,
       it.circle ∣ macroPeriodOf s1Table) ∧
     (∀ m, 0 < m → (∀ it ∈ s1Table.tt_items.filterMap id, it.circle ∣ m) →
       macroPeriodOf s1Table ≤ m)) ∧
    macroPeriodOf s1Table = 1500 :=
  ⟨C6_amended s1Table (by decide) (by decide) (by decide), by decide⟩

/- Helper lemmas on list cells, for the header codec proofs. -/


/-- Writing back the value a cell already holds leaves the list unchanged. -/
theorem set_getD_self (l : List Nat) (i : Nat) (_hi : i < l.length) :
    l.set i (l.getD i 0) = l := by
  refine List.ext_getElem (by simp) ?_
  intro j h1 h2
  rw [List.getElem_set]
  by_cases hij : i = j
  · subst hij
    simp only [if_pos rfl]
    exact List.getD_eq_getElem l 0 h2
  · simp [hij]

/-- The take-prefix of the frame keeps the byte at an in-range index. -/
theorem getD_take_eq (l : List Nat) (n i : Nat) (hi : i < n)
    (hn : n ≤ l.length) : (l.take n).getD i 0 = l.getD i 0 := by
  have hlt : i < (l.take n).length := by
    simp [List.length_take]
    omega
  rw [List.getD_eq_getElem _ 0 hlt, List.getD_eq_getElem l 0 (by omega),
    List.getElem_take]

/-- The normal form of the bytes push_tt() produces. -/
theorem push_tt_data (ethPTT fid : Nat) (skb : sk_buff) :
    (push_tt ethPTT skb fid).data =
      setProto (skb.data.take skb.mac_len) 0 ethPTT ++
        tt_header_bytes (u16 fid) (u16 (skb.data.length + 4 - 4)) ++
        skb.data.drop skb.mac_len := rfl

/-- The normal form of the bytes pop_tt() produces. -/
theorem pop_tt_data (skb : sk_buff) :
    (pop_tt skb).data =
      setProto (skb.data.take skb.mac_len ++ skb.data.drop (skb.mac_len + 4))
        (skb.mac_len - 14) ETH_P_IP := rfl

/-- Structure extensionality for the frame model. -/
theorem sk_buff_ext (a b : sk_buff) (h1 : a.data = b.data)
    (h2 : a.mac_len = b.mac_len) : a = b := by
  cases a
  cases b
  cases h1
  cases h2
  rfl

/-- The two EtherType cells written twice collapse onto the original MAC
prefix when the original already held the target bytes. -/
theorem setProto_restore (T : List Nat) (x y : Nat) (hTlen : T.length = 14)
    (h12 : T.getD 12 0 = 0x08) (h13 : T.getD 13 0 = 0x00) :
    (((T.set 12 x).set 13 y).set 12 8).set 13 0 = T := by
  have hc : ((T.set 12 x).set 13 y).set 12 8 =
      ((T.set 12 x).set 12 8).set 13 y :=
    List.set_comm y 8 (T.set 12 x) (by omega)
  rw [hc, List.set_set, List.set_set]
  have h8 : T.set 12 8 = T := by
    have := set_getD_self T 12 (by omega)
    rwa [h12] at this
  rw [h8]
  have := set_getD_self T 13 (by omega)
  rwa [h13] at this

/-- C8: on an IPv4 frame (EtherType bytes 08 00, standard 14-byte MAC
header) with sufficient headroom and a writable buffer, pop_tt undoes
push_tt byte for byte, and the pushed frame classifies as native TT. -/
theorem C8_roundtrip (ethPTT fid : Nat) (skb : sk_buff)
    (hm : skb.mac_len = 14) (hl : 14 ≤ skb.data.length)
    (h12 : skb.data.getD 12 0 = 0x08) (h13 : skb.data.getD 13 0 = 0x00) :
    pop_tt (push_tt ethPTT skb fid) = skb ∧
    is_tt_packet ethPTT (push_tt ethPTT skb fid) = true := by
  have hTlen : (skb.data.take 14).length = 14 := by
    simp [List.length_take]
    omega
  have hMlen : (setProto (skb.data.take 14) 0 ethPTT).length = 14 := by
    simp [setProto]
    omega
  have hdata : (push_tt ethPTT skb fid).data =
      setProto (skb.data.take 14) 0 ethPTT ++
        tt_header_bytes (u16 fid) (u16 (skb.data.length + 4 - 4)) ++
        skb.data.drop 14 := by
    rw [push_tt_data, hm]
  have hMHlen : (setProto (skb.data.take 14) 0 ethPTT ++
      tt_header_bytes (u16 fid) (u16 (skb.data.length + 4 - 4))).length = 18 := by
    rw [List.length_append, hMlen]
    rfl
  have hT12 : (skb.data.take 14).getD 12 0 = 0x08 := by
    rw [getD_take_eq skb.data 14 12 (by omega) hl, h12]
  have hT13 : (skb.data.take 14).getD 13 0 = 0x00 := by
    rw [getD_take_eq skb.data 14 13 (by omega) hl, h13]
  have hmac : (push_tt ethPTT skb fid).mac_len = skb.mac_len := rfl
  constructor
  · apply sk_buff_ext
    · rw [pop_tt_data, hmac, hm]
      rw [show (14 : Nat) + 4 = 18 from rfl, show (14 : Nat) - 14 = 0 from rfl]
      have htake : (push_tt ethPTT skb fid).data.take 14 =
          setProto (skb.data.take 14) 0 ethPTT := by
        rw [hdata, List.append_assoc]
        exact List.take_left' hMlen
      have hdrop : (push_tt ethPTT skb fid).data.drop 18 =
          skb.data.drop 14 := by
        rw [hdata]
        exact List.drop_left' hMHlen
      rw [htake, hdrop]
      simp only [setProto, Nat.zero_add]
      rw [show ETH_P_IP / 256 % 256 = 8 from rfl,
        show ETH_P_IP % 256 = 0 from rfl]
      rw [List.set_append_left 12 8 (by simp [List.length_take]; omega)]
      rw [List.set_append_left 13 0 (by simp [List.length_take]; omega)]
      rw [setProto_restore (skb.data.take 14) _ _ hTlen hT12 hT13]
      exact List.take_append_drop 14 skb.data
    · rfl
  · have hb1 : ∀ i : Nat, i < 18 → i < (setProto (skb.data.take 14) 0 ethPTT ++
        tt_header_bytes (u16 fid) (u16 (skb.data.length + 4 - 4))).length := by
      intro i hi
      rw [hMHlen]
      exact hi
    have hb2 : ∀ i : Nat, i < 14 →
        i < (setProto (skb.data.take 14) 0 ethPTT).length := by
      intro i hi
      rw [hMlen]
      exact hi
    have hg12 : (push_tt ethPTT skb fid).data.getD 12 0 =
        ethPTT / 256 % 256 := by
      rw [hdata, List.getD_append _ _ 0 12 (hb1 12 (by omega)),
        List.getD_append _ _ 0 12 (hb2 12 (by omega))]
      simp only [setProto, Nat.zero_add]
      rw [List.getD_eq_getElem _ 0 (by simp [List.length_take]; omega)]
      rw [List.getElem_set]
      simp [List.getElem_set]
    have hg13 : (push_tt ethPTT skb fid).data.getD 13 0 = ethPTT % 256 := by
      rw [hdata, List.getD_append _ _ 0 13 (hb1 13 (by omega)),
        List.getD_append _ _ 0 13 (hb2 13 (by omega))]
      simp only [setProto, Nat.zero_add]
      rw [List.getD_eq_getElem _ 0 (by simp [List.length_take]; omega)]
      rw [List.getElem_set]
      simp
    have hexp : is_tt_packet ethPTT (push_tt ethPTT skb fid) =
        (((push_tt ethPTT skb fid).data.getD 12 0 == ethPTT / 256 % 256) &&
          ((push_tt ethPTT skb fid).data.getD 13 0 == ethPTT % 256)) := rfl
    rw [hexp, hg12, hg13]
    simp

/-- Witness for C8 at the 100-byte S3 IPv4 frame. -/
theorem C8_roundtrip_witness :
    pop_tt (push_tt 0x88B5 s3Frame 0x42) = s3Frame ∧
    is_tt_packet 0x88B5 (push_tt 0x88B5 s3Frame 0x42) = true :=
  C8_roundtrip 0x88B5 0x42 s3Frame (by decide) (by decide) (by decide)
    (by decide)

/-- C7 counterexample: pushing flow 0x42 onto the 100-byte S3 frame writes
flow_id bytes 00 42 but length bytes 00 64 (decimal 100), not the claimed
00 60 (96): tt_hdr->len = skb->len - 4 is evaluated after skb_push has grown
skb->len by 4, so the field holds the original frame length, not the
original length minus 4. -/
theorem C7_counterexample :
    s3Frame.data.length = 100 ∧
    (push_tt 0x88B5 s3Frame 0x42).data.getD 14 0 = 0x00 ∧
    (push_tt 0x88B5 s3Frame 0x42).data.getD 15 0 = 0x42 ∧
    (push_tt 0x88B5 s3Frame 0x42).data.getD 16 0 = 0x00 ∧
    (push_tt 0x88B5 s3Frame 0x42).data.getD 17 0 = 0x64 ∧
    (push_tt 0x88B5 s3Frame 0x42).data.getD 17 0 ≠ 0x60 := by
  decide

/-- C7 (amended): for a frame with the standard 14-byte MAC header,
sufficient headroom and 16-bit flow id, push_tt sets the EtherType bytes to
ETH_P_TT, grows the frame by TT_HLEN = 4, and writes the TT header after the
MAC header in network byte order with length = post-push total frame length
minus 4, which equals the ORIGINAL frame length (the claimed value original
length minus 4 is off by four). -/
theorem C7_amended (ethPTT fid : Nat) (skb : sk_buff)
    (hm : skb.mac_len = 14) (hl : 14 ≤ skb.data.length)
    (hlen : skb.data.length < 2 ^ 16) (hf : fid < 2 ^ 16) :
    (push_tt ethPTT skb fid).data.length = skb.data.length + 4 ∧
    (push_tt ethPTT skb fid).data.getD 12 0 = ethPTT / 256 % 256 ∧
    (push_tt ethPTT skb fid).data.getD 13 0 = ethPTT % 256 ∧
    (push_tt ethPTT skb fid).data.getD 14 0 = fid / 256 ∧
    (push_tt ethPTT skb fid).data.getD 15 0 = fid % 256 ∧
    (push_tt ethPTT skb fid).data.getD 16 0 = skb.data.length / 256 ∧
    (push_tt ethPTT skb fid).data.getD 17 0 = skb.data.length % 256 := by
  have h16 : (2 : Nat) ^ 16 = 65536 := rfl
  rw [h16] at hlen hf
  have hMlen : (setProto (skb.data.take 14) 0 ethPTT).length = 14 := by
    simp [setProto]
    omega
  have hdata : (push_tt ethPTT skb fid).data =
      setProto (skb.data.take 14) 0 ethPTT ++
        tt_header_bytes (u16 fid) (u16 (skb.data.length + 4 - 4)) ++
        skb.data.drop 14 := by
    rw [push_tt_data, hm]
  have hMHlen : (setProto (skb.data.take 14) 0 ethPTT ++
      tt_header_bytes (u16 fid) (u16 (skb.data.length + 4 - 4))).length = 18 := by
    rw [List.length_append, hMlen]
    rfl
  have hb1 : ∀ i : Nat, i < 18 → i < (setProto (skb.data.take 14) 0 ethPTT ++
      tt_header_bytes (u16 fid) (u16 (skb.data.length + 4 - 4))).length := by
    intro i hi
    rw [hMHlen]
    exact hi
  have hb2 : ∀ i : Nat, i < 14 →
      i < (setProto (skb.data.take 14) 0 ethPTT).length := by
    intro i hi
    rw [hMlen]
    exact hi
  have hHd : ∀ j v : Nat, j < 4 →
      (push_tt ethPTT skb fid).data.getD (14 + j) 0 =
        (tt_header_bytes (u16 fid) (u16 (skb.data.length + 4 - 4))).getD j 0 := by
    intro j v hj
    rw [hdata, List.getD_append _ _ 0 (14 + j) (hb1 (14 + j) (by omega)),
      List.getD_append_right _ _ 0 (14 + j) (by rw [hMlen]; omega)]
    rw [hMlen]
    congr 1
    omega
  refine ⟨?_, ?_, ?_, ?_, ?_, ?_, ?_⟩
  · rw [hdata]
    simp [List.length_append, List.length_drop, hMlen, tt_header_bytes, be16]
    omega
  · rw [hdata, List.getD_append _ _ 0 12 (hb1 12 (by omega)),
      List.getD_append _ _ 0 12 (hb2 12 (by omega))]
    simp only [setProto, Nat.zero_add]
    rw [List.getD_eq_getElem _ 0 (by simp [List.length_take]; omega)]
    rw [List.getElem_set]
    simp [List.getElem_set]
  · rw [hdata, List.getD_append _ _ 0 13 (hb1 13 (by omega)),
      List.getD_append _ _ 0 13 (hb2 13 (by omega))]
    simp only [setProto, Nat.zero_add]
    rw [List.getD_eq_getElem _ 0 (by simp [List.length_take]; omega)]
    rw [List.getElem_set]
    simp
  · have := hHd 0 0 (by omega)
    rw [show (14 : Nat) + 0 = 14 from rfl] at this
    rw [this]
    simp [tt_header_bytes, be16, u16, h16]
    omega
  · have := hHd 1 0 (by omega)
    rw [show (14 : Nat) + 1 = 15 from rfl] at this
    rw [this]
    simp [tt_header_bytes, be16, u16, h16]
    omega
  · have := hHd 2 0 (by omega)
    rw [show (14 : Nat) + 2 = 16 from rfl] at this
    rw [this]
    simp [tt_header_bytes, be16, u16, h16]
    omega
  · have := hHd 3 0 (by omega)
    rw [show (14 : Nat) + 3 = 17 from rfl] at this
    rw [this]
    simp [tt_header_bytes, be16, u16, h16]
    omega

/-- Witness for C7 (amended) at the 100-byte S3 frame with flow id 0x42. -/
theorem C7_amended_witness :
    (push_tt 0x88B5 s3Frame 0x42).data.length = s3Frame.data.length + 4 ∧
    (push_tt 0x88B5 s3Frame 0x42).data.getD 12 0 = 0x88B5 / 256 % 256 ∧
    (push_tt 0x88B5 s3Frame 0x42).data.getD 13 0 = 0x88B5 % 256 ∧
    (push_tt 0x88B5 s3Frame 0x42).data.getD 14 0 = 0x42 / 256 ∧
    (push_tt 0x88B5 s3Frame 0x42).data.getD 15 0 = 0x42 % 256 ∧
    (push_tt 0x88B5 s3Frame 0x42).data.getD 16 0 = s3Frame.data.length / 256 ∧
    (push_tt 0x88B5 s3Frame 0x42).data.getD 17 0 = s3Frame.data.length % 256 :=
  C7_amended 0x88B5 0x42 s3Frame (by decide) (by decide) (by decide)
    (by decide)

/- Lemmas for the timer lookup (C2). -/

/-- A 64-bit value below the modulus is unchanged. -/
theorem u64_id (a : Nat) (h : a < 2 ^ 64) : u64 a = a := Nat.mod_eq_of_lt h

/-- 64-bit subtraction is plain subtraction when it cannot underflow. -/
theorem u64sub_eq (a b : Nat) (hba : b ≤ a) (ha : a < 2 ^ 64) :
    u64sub a b = a - b := by
  have h64 : (2 : Nat) ^ 64 = 18446744073709551616 := rfl
  simp only [u64sub, u64, h64] at *
  omega

/-- 64-bit subtraction from a wrapped sum is the plain difference when the
true difference fits. -/
theorem u64sub_u64_eq (a b : Nat) (hba : b ≤ a) (hd : a - b < 2 ^ 64)
    (hb : b < 2 ^ 64) : u64sub (u64 a) b = a - b := by
  have h64 : (2 : Nat) ^ 64 = 18446744073709551616 := rfl
  simp only [u64sub, u64, h64] at *
  omega

/-- Reading a nondecreasing list at two ordered in-range indices respects
the order. -/
theorem sorted_getD_le (times : List Nat)
    (hs : List.Sorted (fun a b : Nat => a ≤ b) times) (i j : Nat)
    (hij : i ≤ j) (hj : j < times.length) :
    times.getD i 0 ≤ times.getD j 0 := by
  rcases Nat.eq_or_lt_of_le hij with h | h
  · subst h
    exact Nat.le_refl _
  · rw [List.getD_eq_getElem times 0 (by omega),
      List.getD_eq_getElem times 0 hj]
    exact List.Sorted.rel_get_of_lt hs (a := ⟨i, by omega⟩) (b := ⟨j, hj⟩) h

/-- Invariants of the binarySearch narrowing loop: starting from a window
[left, right] whose outside is already classified, the returned index r
satisfies left ≤ r ≤ right, every entry before r is ≤ modTime, and every
entry from r on (except possibly the last one) is > modTime. -/
theorem bsAux_spec (times : List Nat) (m : Nat)
    (hs : List.Sorted (fun a b : Nat => a ≤ b) times) :
    ∀ fuel left right, right - left ≤ fuel → left ≤ right →
      right < times.length →
      (∀ j, j < left → times.getD j 0 ≤ m) →
      (∀ j, right ≤ j → j + 1 < times.length → m < times.getD j 0) →
      left ≤ bsAux fuel times m left right ∧
      bsAux fuel times m left right ≤ right ∧
      (∀ j, j < bsAux fuel times m left right → times.getD j 0 ≤ m) ∧
      (∀ j, bsAux fuel times m left right ≤ j → j + 1 < times.length →
        m < times.getD j 0) := by
  intro fuel
  induction fuel with
  | zero =>
      intro left right hw hlr _hrl h1 h2
      have hleq : left = right := by omega
      subst hleq
      simp only [bsAux]
      exact ⟨Nat.le_refl _, Nat.le_refl _, h1, h2⟩
  | succ n ih =>
      intro left right hw hlr hrl h1 h2
      by_cases hlt : left < right
      · by_cases hc : times.getD ((right - left) / 2 + left) 0 ≤ m
        · have hred : bsAux (n + 1) times m left right =
              bsAux n times m ((right - left) / 2 + left + 1) right := by
            simp only [bsAux]
            rw [if_pos hlt, if_pos hc]
          have hmid2 : (right - left) / 2 + left < right := by omega
          have h1new : ∀ j, j < (right - left) / 2 + left + 1 →
              times.getD j 0 ≤ m := by
            intro j hj
            by_cases hjl : j < left
            · exact h1 j hjl
            · exact Nat.le_trans
                (sorted_getD_le times hs j ((right - left) / 2 + left)
                  (by omega) (by omega)) hc
          obtain ⟨ha, hb, hcc, hd⟩ :=
            ih ((right - left) / 2 + left + 1) right (by omega) (by omega)
              hrl h1new h2
          rw [hred]
          exact ⟨by omega, hb, hcc, hd⟩
        · have hred : bsAux (n + 1) times m left right =
              bsAux n times m left ((right - left) / 2 + left) := by
            simp only [bsAux]
            rw [if_pos hlt, if_neg hc]
          have hmid2 : (right - left) / 2 + left < right := by omega
          have h2new : ∀ j, (right - left) / 2 + left ≤ j →
              j + 1 < times.length → m < times.getD j 0 := by
            intro j hj hj1
            exact Nat.lt_of_not_le fun hle =>
              hc (Nat.le_trans
                (sorted_getD_le times hs ((right - left) / 2 + left) j hj
                  (by omega)) hle)
          obtain ⟨ha, hb, hcc, hd⟩ :=
            ih left ((right - left) / 2 + left) (by omega) (by omega)
              (by omega) h1 h2new
          rw [hred]
          exact ⟨ha, by omega, hcc, hd⟩
      · have hleq : left = right := by omega
        have hred : bsAux (n + 1) times m left right = left := by
          simp only [bsAux]
          rw [if_neg hlt]
        rw [hred]
        subst hleq
        exact ⟨Nat.le_refl _, Nat.le_refl _, h1, h2⟩

/-- leCount never exceeds the list length. -/
theorem leCount_le_length (times : List Nat) (m : Nat) :
    leCount times m ≤ times.length := by
  induction times with
  | nil => simp [leCount]
  | cons x rest ih =>
      by_cases h : x ≤ m <;> simp [leCount, h]
      omega

/-- leCount is pinned by a boundary: everything before r is ≤ m and the
entry at r exceeds m. -/
theorem leCount_eq_of_boundary (times : List Nat) (m : Nat) :
    ∀ r, (∀ j, j < r → times.getD j 0 ≤ m) → r < times.length →
      m < times.getD r 0 → leCount times m = r := by
  induction times with
  | nil =>
      intro r _ hr _
      simp at hr
  | cons x rest ih =>
      intro r h1 hr hgt
      cases r with
      | zero =>
          have hx : m < x := by simpa using hgt
          simp [leCount, show ¬ x ≤ m by omega]
      | succ k =>
          have hx : x ≤ m := by simpa using h1 0 (Nat.succ_pos k)
          have hrec : leCount rest m = k := by
            apply ih k
            · intro j hj
              simpa using h1 (j + 1) (by omega)
            · simpa using hr
            · simpa using hgt
          simp [leCount, hx, hrec]

/-- leCount is the full length when every entry is ≤ m. -/
theorem leCount_eq_length_of_all (times : List Nat) (m : Nat) :
    (∀ j, j < times.length → times.getD j 0 ≤ m) →
    leCount times m = times.length := by
  induction times with
  | nil =>
      intro
      rfl
  | cons x rest ih =>
      intro h
      have hx : x ≤ m := by simpa using h 0 (by simp)
      have hrec := ih fun j hj => by
        simpa using h (j + 1) (by simp; omega)
      simp [leCount, hx, hrec]

/-- The binarySearch loop followed by the do_div(left, size) wrap computes
the clamped insertion index of modTime in a sorted list. -/
theorem bsLoop_eq_insertionIdx (times : List Nat) (m : Nat)
    (hpos : 0 < times.length)
    (hs : List.Sorted (fun a b : Nat => a ≤ b) times) :
    bsLoop times m 0 (times.length - 1) % times.length =
      insertionIdx times m := by
  obtain ⟨hA, hB, hC, hD⟩ :=
    bsAux_spec times m hs (times.length - 1) 0 (times.length - 1)
      (by omega) (by omega) (by omega)
      (fun j hj => absurd hj (Nat.not_lt_zero j))
      (fun j hj hj2 => False.elim (by omega))
  have hloop : bsLoop times m 0 (times.length - 1) =
      bsAux (times.length - 1) times m 0 (times.length - 1) := by
    simp only [bsLoop, Nat.sub_zero]
  rw [hloop, Nat.mod_eq_of_lt (by omega)]
  by_cases hend : bsAux (times.length - 1) times m 0 (times.length - 1) <
      times.length - 1
  · have hgt : m < times.getD
        (bsAux (times.length - 1) times m 0 (times.length - 1)) 0 :=
      hD _ (Nat.le_refl _) (by omega)
    have hlc : leCount times m =
        bsAux (times.length - 1) times m 0 (times.length - 1) :=
      leCount_eq_of_boundary times m _ hC (by omega) hgt
    rw [insertionIdx, hlc]
    omega
  · have hre : bsAux (times.length - 1) times m 0 (times.length - 1) =
        times.length - 1 := by omega
    by_cases hlast : m < times.getD (times.length - 1) 0
    · have hlc : leCount times m = times.length - 1 :=
        leCount_eq_of_boundary times m _ (hre ▸ hC) (by omega) hlast
      rw [insertionIdx, hlc, hre]
      omega
    · have hall : ∀ j, j < times.length → times.getD j 0 ≤ m := by
        intro j hj
        by_cases hj1 : j < times.length - 1
        · exact hC j (by omega)
        · have hjeq : j = times.length - 1 := by omega
          subst hjeq
          omega
      have hlc : leCount times m = times.length :=
        leCount_eq_length_of_all times m hall
      rw [insertionIdx, hlc, hre]
      omega

/-- C2 (amended): for a well-formed send cache (parallel arrays of length
size ≥ 1, strictly ascending instants all below the macro period, 64-bit
macro period) and any 64-bit global time t, get_next_time behaves exactly as
nextSpec: the selected idx is the binary-search insertion point of
t mod macro_period clamped to size - 1 — the LEAST i with times[i] >
mod_time, wrapping to size - 1 when every instant is ≤ mod_time, not the
greatest i with times[i] ≤ mod_time — flow_id = flow_ids[idx], wait_ns =
times[(idx+1) mod size] - times[idx] plus macro_period on wrap, and the
returned send time is t / macro_period + ((times[idx] - mod_time) mod
macro_period): the do_div quotient of t, not t itself. -/
theorem C2_amended (info : tt_send_info) (t : Nat)
    (hsz : info.send_cache.size = info.send_cache.send_times.length)
    (hpos : 0 < info.send_cache.send_times.length)
    (hasc : List.Sorted (fun a b : Nat => a < b) info.send_cache.send_times)
    (hbound : ∀ x ∈ info.send_cache.send_times, x < info.macro_period)
    (hmp : info.macro_period < 2 ^ 64)
    (ht : t < 2 ^ 64) :
    get_next_time info t = nextSpec info t := by
  have hs : List.Sorted (fun a b : Nat => a ≤ b)
      info.send_cache.send_times :=
    hasc.imp fun h => Nat.le_of_lt h
  have hval : ∀ i, i < info.send_cache.send_times.length →
      info.send_cache.send_times.getD i 0 < info.macro_period := by
    intro i hi
    apply hbound
    rw [List.getD_eq_getElem _ 0 hi]
    exact List.getElem_mem hi
  have hmp0 : 0 < info.macro_period := by
    have := hval 0 hpos
    omega
  have hm : t % info.macro_period < info.macro_period := Nat.mod_lt t hmp0
  have hidx_eq : binarySearch info (t % info.macro_period) =
      insertionIdx info.send_cache.send_times (t % info.macro_period) := by
    show bsLoop info.send_cache.send_times (t % info.macro_period) 0
        (info.send_cache.size - 1) % info.send_cache.size = _
    rw [hsz]
    exact bsLoop_eq_insertionIdx _ _ hpos hs
  have hidx_lt :
      insertionIdx info.send_cache.send_times (t % info.macro_period) <
        info.send_cache.send_times.length := by
    rw [insertionIdx]
    have := leCount_le_length info.send_cache.send_times
      (t % info.macro_period)
    omega
  have hq : ∀ d : Nat, d < info.macro_period →
      u64 (t / info.macro_period + d) = t / info.macro_period + d := by
    intro d hd
    apply u64_id
    rcases Nat.eq_zero_or_pos (t / info.macro_period) with hq0 | hq0
    · omega
    · have h1 : t / info.macro_period * info.macro_period ≤ t :=
        Nat.div_mul_le_self t _
      have h2 : t / info.macro_period + info.macro_period ≤
          t / info.macro_period * info.macro_period + 1 := by
        obtain ⟨k, hk⟩ : ∃ k, t / info.macro_period = k + 1 :=
          ⟨t / info.macro_period - 1, by omega⟩
        obtain ⟨j, hj⟩ : ∃ j, info.macro_period = j + 1 :=
          ⟨info.macro_period - 1, by omega⟩
        rw [hk, hj]
        nlinarith [Nat.zero_le (k * j)]
      omega
  simp only [get_next_time, nextSpec, hsz, hidx_eq, Prod.mk.injEq]
  refine ⟨?_, trivial, ?_⟩
  · by_cases hwrap :
        insertionIdx info.send_cache.send_times (t % info.macro_period) + 1 =
          info.send_cache.send_times.length
    · have hmod : (insertionIdx info.send_cache.send_times
          (t % info.macro_period) + 1) %
            info.send_cache.send_times.length = 0 := by
        rw [hwrap]
        exact Nat.mod_self _
      rw [hmod, if_pos rfl, if_pos hwrap]
      have h0le : info.send_cache.send_times.getD 0 0 ≤
          info.send_cache.send_times.getD
            (insertionIdx info.send_cache.send_times
              (t % info.macro_period)) 0 :=
        sorted_getD_le _ hs 0 _ (Nat.zero_le _) hidx_lt
      have hiv := hval _ hidx_lt
      rw [u64sub_u64_eq _ _ (by omega) (by omega) (by omega)]
    · have hlt1 :
          insertionIdx info.send_cache.send_times (t % info.macro_period) + 1
            < info.send_cache.send_times.length := by omega
      rw [Nat.mod_eq_of_lt hlt1, if_neg (by omega), if_neg hwrap]
      have hle : info.send_cache.send_times.getD
            (insertionIdx info.send_cache.send_times
              (t % info.macro_period)) 0 ≤
          info.send_cache.send_times.getD
            (insertionIdx info.send_cache.send_times
              (t % info.macro_period) + 1) 0 :=
        sorted_getD_le _ hs _ _ (Nat.le_succ _) hlt1
      have hiv := hval _ hlt1
      rw [u64sub_eq _ _ hle (by omega)]
  · have hiv := hval _ hidx_lt
    by_cases hgt : info.send_cache.send_times.getD
        (insertionIdx info.send_cache.send_times (t % info.macro_period)) 0 <
          t % info.macro_period
    · rw [if_pos hgt, if_pos hgt]
      rw [u64sub_eq _ _ (by omega) (by omega)]
      rw [u64_id (info.macro_period - t % info.macro_period +
        info.send_cache.send_times.getD
          (insertionIdx info.send_cache.send_times (t % info.macro_period)) 0)
        (by omega)]
      exact hq _ (by omega)
    · rw [if_neg hgt, if_neg hgt]
      rw [u64sub_eq _ _ (by omega) (by omega)]
      exact hq _ (by omega)

/-- C2 counterexample: on the cache times = [0, 100], flow_ids = [1, 2],
macro period 1000, at t = 50 the greatest index with times[i] ≤ mod_time is
0, so the claim demands flow_id flow_ids[0] = 1; the code instead selects
the insertion point 1 and returns flow 2 with wait 900 and send time 50. -/
theorem C2_counterexample :
    (c2CexInfo.send_cache.send_times.getD 0 0 ≤ 50 % c2CexInfo.macro_period ∧
     (∀ j, j < c2CexInfo.send_cache.send_times.length →
       c2CexInfo.send_cache.send_times.getD j 0 ≤
         50 % c2CexInfo.macro_period → j ≤ 0)) ∧
    c2CexInfo.send_cache.flow_ids.getD 0 0 = 1 ∧
    get_next_time c2CexInfo 50 = (900, 2, 50) ∧
    (get_next_time c2CexInfo 50).2.1 ≠ 1 := by
  decide

/-- Witness for C2 (amended) at the S2 single-flow cache and t = 0: the
amended description instantiates to wait 1000, flow 7, send time 250. -/
theorem C2_amended_witness :
    get_next_time s2Info 0 = nextSpec s2Info 0 ∧
    nextSpec s2Info 0 = (1000, 7, 250) :=
  ⟨C2_amended s2Info 0 (by decide) (by decide) (by decide) (by decide)
     (by decide) (by decide), by decide⟩

end TT
